import Mathlib

/-!
Verification of the YourSplit expense-splitting core.

The repository's UI pages (`GroupBalancesPage`, `DashboardPage`) and the
`/api/group-members` route are embedded from their TypeScript source.
The two pure computation entry points of the core, `ComputeBalances`
(ledger aggregation) and `ComputeSettlements` (debt simplification), live
in API routes that are not part of the provided sources; they are modelled
from the specification (sections 3, 4, 6, 7), as noted on each definition.
All currency arithmetic is in integer minor units.
-/

namespace YourSplit

/-- Modelled from the spec: section 3 Member record, `{id, name}`.
Identity is the `id`; uniqueness within a roster is required. -/
structure Member where
  id : String
  name : String
deriving DecidableEq, Repr

/-- Modelled from the spec: section 3 Expense record, restricted to the
fields the core reads (`amount` in integer minor units, signed so that the
`amount > 0` guard is expressible, and `paidById`). -/
structure Expense where
  description : String
  amount : Int
  paidById : String
deriving DecidableEq, Repr

/-- Balance record, `{userId, name, balance}`, as in the source interface
`Balance` of `GroupBalancesPage` and section 3 of the spec.  The balance is
a signed amount in minor units. -/
structure Balance where
  userId : String
  name : String
  balance : Int
deriving DecidableEq, Repr

/-- Settlement record: `{from, to, amount}` in the source interface
`Settlement`; `from`/`to` are rendered here as `fromId`/`toId` because
`from` is a reserved word in Lean.  The amount is a positive amount in
minor units. -/
structure Settlement where
  fromId : String
  toId : String
  amount : Nat
deriving DecidableEq, Repr

/-- Modelled from the spec: section 7 typed error kinds of the core. -/
inductive CoreError where
  | InvalidAmount
  | UnknownPayer
  | EmptyRoster
  | UnbalancedInput
deriving DecidableEq, Repr

/-- Modelled from the spec: section 6 output shape of `ComputeBalances`,
`{totalExpenses, perPersonShare, balances[]}`.  `perPersonShare` is the
informational display value `totalExpenses / n`. -/
structure BalanceResult where
  totalExpenses : Int
  perPersonShare : Rat
  balances : List Balance
deriving DecidableEq, Repr

/-- Modelled from the spec: section 4.1 step 3.  The share of the member at
roster position `i` for a single expense of `amount` minor units over `n`
members: the equal share `amount / n` plus one extra minor unit for the
first `amount % n` members in the fixed deterministic order. -/
def shareOf (n : Nat) (amount : Nat) (i : Nat) : Nat :=
  amount / n + (if i < amount % n then 1 else 0)

/-- Modelled from the spec: section 4.1 step 4.  The running balance of the
member `m` at roster position `i`: over all expenses, the amount if they
are the payer minus their share of that expense. -/
def balanceOf (n : Nat) (exps : List Expense) (i : Nat) (m : Member) : Int :=
  (exps.map fun e =>
    (if e.paidById = m.id then e.amount else 0) - (shareOf n e.amount.toNat i : Int)).sum

/-- Whether the roster contains a member with the given id. -/
def rosterHas (roster : List Member) (pid : String) : Bool :=
  roster.any fun m => m.id == pid

/-- Modelled from the spec: sections 4.1, 6, 7 — the `ComputeBalances`
entry point (ledger aggregation).  Amounts are validated first
(`InvalidAmount` when some `amount ≤ 0`, rejected before aggregation),
then the degenerate empty roster is handled (`EmptyRoster` only when a
non-empty expense list would force a division), then payers are resolved
(`UnknownPayer` when an expense's `paidById` is absent from the roster),
and only then are the exact per-expense shares aggregated. -/
def ComputeBalances (roster : List Member) (exps : List Expense) :
    Except CoreError BalanceResult :=
  if exps.any (fun e => decide (e.amount ≤ 0)) then .error .InvalidAmount
  else if roster.isEmpty then
    (if exps.isEmpty then .ok ⟨0, 0, []⟩ else .error .EmptyRoster)
  else if exps.any (fun e => !rosterHas roster e.paidById) then .error .UnknownPayer
  else
    .ok { totalExpenses := (exps.map (·.amount)).sum
          perPersonShare := ((exps.map (·.amount)).sum : Rat) / (roster.length : Rat)
          balances := roster.enum.map fun p =>
            { userId := p.2.id
              name := p.2.name
              balance := balanceOf roster.length exps p.1 p.2 } }

/-- A party of the settlement matching: a member key together with their
remaining positive magnitude in minor units. -/
structure Party where
  uid : String
  amt : Nat
deriving DecidableEq, Repr

/-- Modelled from the spec: section 4.2 step 2 ordering — remaining
magnitude descending, ties broken by ascending member id. -/
def PartyRel (p q : Party) : Prop :=
  q.amt < p.amt ∨ (p.amt = q.amt ∧ p.uid ≤ q.uid)

instance : DecidableRel PartyRel := fun p q => by
  unfold PartyRel; exact inferInstance

instance : IsTotal Party PartyRel where
  total p q := by
    unfold PartyRel
    rcases Nat.lt_trichotomy q.amt p.amt with h | h | h
    · exact Or.inl (Or.inl h)
    · rcases le_total p.uid q.uid with hu | hu
      · exact Or.inl (Or.inr ⟨h.symm, hu⟩)
      · exact Or.inr (Or.inr ⟨h, hu⟩)
    · exact Or.inr (Or.inl h)

instance : IsTrans Party PartyRel where
  trans p q r hpq hqr := by
    unfold PartyRel at *
    rcases hpq with h1 | ⟨h1, h1u⟩ <;> rcases hqr with h2 | ⟨h2, h2u⟩
    · exact Or.inl (h2.trans h1)
    · exact Or.inl (by omega)
    · exact Or.inl (by omega)
    · exact Or.inr ⟨h1.trans h2, h1u.trans h2u⟩

instance : IsAntisymm Party PartyRel where
  antisymm p q hpq hqp := by
    unfold PartyRel at *
    have hamt : p.amt = q.amt := by omega
    have huid : p.uid = q.uid := by
      rcases hpq with h | ⟨_, h⟩
      · omega
      · rcases hqp with h' | ⟨_, h'⟩
        · omega
        · exact le_antisymm h h'
    cases p; cases q; simp_all

/-- Modelled from the spec: section 4.2 step 3 — the greedy matching loop.
Take the largest-magnitude debtor and creditor, transfer the minimum of
the two remaining magnitudes, emit the settlement, reduce both sides,
drop a party that reaches zero and re-insert a party that does not at its
sorted position.  Terminates because each step drives at least one party
to zero. -/
def settleLoop : List Party → List Party → List Settlement
  | [], _ => []
  | _ :: _, [] => []
  | d :: ds, c :: cs =>
    ⟨d.uid, c.uid, min d.amt c.amt⟩ ::
      settleLoop
        (if d.amt - min d.amt c.amt = 0 then ds
         else List.orderedInsert PartyRel ⟨d.uid, d.amt - min d.amt c.amt⟩ ds)
        (if c.amt - min d.amt c.amt = 0 then cs
         else List.orderedInsert PartyRel ⟨c.uid, c.amt - min d.amt c.amt⟩ cs)
termination_by ds cs => ds.length + cs.length
decreasing_by
  have h : d.amt - min d.amt c.amt = 0 ∨ c.amt - min d.amt c.amt = 0 := by omega
  split_ifs <;> simp_all [List.orderedInsert_length] <;> omega

/-- Modelled from the spec: section 4.2 step 1 — a member with negative
balance becomes a debtor party carrying the positive magnitude of what
they owe; the party is labelled by `key`. -/
def debtorParty (key : Balance → String) (b : Balance) : Option Party :=
  if b.balance < 0 then some ⟨key b, (-b.balance).toNat⟩ else none

/-- Modelled from the spec: section 4.2 step 1 — a member with positive
balance becomes a creditor party carrying what they are owed. -/
def creditorParty (key : Balance → String) (b : Balance) : Option Party :=
  if 0 < b.balance then some ⟨key b, b.balance.toNat⟩ else none

/-- Modelled from the spec: sections 4.2, 6, 7 — the settlement planner,
parametrised by the label placed in the `from`/`to` fields.  Fails with
`UnbalancedInput` when the balances do not sum to zero; otherwise
partitions the members into debtors and creditors, orders both
collections by remaining magnitude descending with ties broken by
ascending member id, and runs the greedy matching loop. -/
def settlementsByKey (key : Balance → String) (bs : List Balance) :
    Except CoreError (List Settlement) :=
  if (bs.map (·.balance)).sum ≠ 0 then .error .UnbalancedInput
  else
    .ok (settleLoop
      (List.insertionSort PartyRel (bs.filterMap (debtorParty key)))
      (List.insertionSort PartyRel (bs.filterMap (creditorParty key))))

/-- Modelled from the spec: section 6 — the `ComputeSettlements` entry
point with the contractual labelling: `from`/`to` carry the stable member
identifier `userId`. -/
def ComputeSettlements (bs : List Balance) : Except CoreError (List Settlement) :=
  settlementsByKey (fun b => b.userId) bs

/-- Modelled from the spec: section 9 design note (identifier versus
display name in settlement output) — the observed settlement outputs of the
repository label `from`/`to` with member display names (the settlements
route is not among the provided sources; `GroupBalancesPage` renders
`s.from` and `s.to` directly as member labels). -/
def ComputeSettlementsObserved (bs : List Balance) :
    Except CoreError (List Settlement) :=
  settlementsByKey (fun b => b.name) bs

/-- Parsed submission state of the Add Expense form of `GroupBalancesPage`.
`amountRaw` is the raw text of the amount field; `amountParsed` is the
result of `parseFloat` on it, with `none` standing for `NaN`. -/
structure ExpenseForm where
  description : String
  amountRaw : String
  amountParsed : Option Rat
deriving Repr

/-- Embeds the per-field validation of `handleSubmit` in
`GroupBalancesPage`: the description must be non-blank after trimming,
the amount field must be non-empty, parse to a non-`NaN` value strictly
greater than zero, and a payer must be selected.  The POST to
`/api/expenses` is issued exactly when this returns `true`. -/
def formValid (f : ExpenseForm) (paidById : String) : Bool :=
  !f.description.trim.isEmpty &&
    (!f.amountRaw.isEmpty &&
      ((match f.amountParsed with
        | none => false
        | some a => decide (0 < a)) &&
      !paidById.isEmpty))

/-- Sum of pointwise differences splits into a difference of sums. -/
theorem sum_map_diff {α : Type} (l : List α) (f g : α → Int) :
    (l.map fun x => f x - g x).sum = (l.map f).sum - (l.map g).sum := by
  induction l with
  | nil => simp
  | cons a t ih => simp [ih]; ring

/-- Counting how many of `0, …, n-1` lie below `r`. -/
theorem sum_ite_range (n r : Nat) :
    ((List.range n).map fun i => if i < r then 1 else 0).sum = min r n := by
  induction n with
  | zero => simp
  | succ n ih =>
    rw [List.range_succ, List.map_append, List.sum_append, ih]
    simp only [List.map_cons, List.map_nil, List.sum_cons, List.sum_nil]
    split_ifs <;> omega

/-- The `n` shares of a single expense of `a` minor units over `n > 0`
members sum exactly to `a`: the equal shares contribute `n * (a / n)` and
the distributed remainder contributes `a % n`. -/
theorem shareOf_sum (n a : Nat) (hn : 0 < n) :
    ((List.range n).map (shareOf n a)).sum = a := by
  unfold shareOf
  rw [List.sum_map_add]
  have h1 : ((List.range n).map fun _ => a / n).sum = n * (a / n) := by
    simp [List.map_const', List.sum_replicate, Nat.smul_one_eq_cast]
  have h2 : ((List.range n).map fun i => if i < a % n then 1 else 0).sum = a % n := by
    rw [sum_ite_range]
    exact Nat.min_eq_left (Nat.mod_lt a hn).le
  rw [h1, h2, Nat.div_add_mod]

/-- Mapping a function of the member only over an enumerated roster is
mapping it over the roster. -/
theorem enum_map_comp {α β : Type} (l : List α) (F : α → β) :
    l.enum.map (fun p => F p.2) = l.map F := by
  have h : l.enum.map (fun p => F p.2) = (l.enum.map Prod.snd).map F := by
    rw [List.map_map]; rfl
  rw [h, List.enum_map_snd]

/-- Mapping a function of the position only over an enumerated roster is
mapping it over the range of positions. -/
theorem enum_map_fst_comp {α β : Type} (l : List α) (G : Nat → β) :
    l.enum.map (fun p => G p.1) = (List.range l.length).map G := by
  have h : l.enum.map (fun p => G p.1) = (l.enum.map Prod.fst).map G := by
    rw [List.map_map]; rfl
  rw [h, List.enum_map_fst]

/-- A payer id that appears nowhere in the roster collects nothing. -/
theorem sum_ite_not_mem (pid : String) (A : Int) (l : List Member)
    (h : pid ∉ l.map (·.id)) :
    (l.map fun m => if pid = m.id then A else 0).sum = 0 := by
  induction l with
  | nil => simp
  | cons m t ih =>
    simp only [List.map_cons, List.mem_cons, not_or] at h
    simp [h.1, ih h.2]

/-- With unique member ids, a payer present in the roster collects the
full amount exactly once. -/
theorem sum_ite_mem (pid : String) (A : Int) (l : List Member)
    (hnd : (l.map (·.id)).Nodup) (hmem : pid ∈ l.map (·.id)) :
    (l.map fun m => if pid = m.id then A else 0).sum = A := by
  induction l with
  | nil => simp at hmem
  | cons m t ih =>
    simp only [List.map_cons, List.nodup_cons, List.mem_cons] at hnd hmem
    rcases hmem with h | h
    · rw [List.map_cons, List.sum_cons, if_pos h,
        sum_ite_not_mem pid A t (h ▸ hnd.1)]
      ring
    · have hne : pid ≠ m.id := fun he => hnd.1 (he ▸ h)
      rw [List.map_cons, List.sum_cons, if_neg hne, ih hnd.2 h]
      ring

/-- The check `rosterHas` answers exactly membership of the id in the roster. -/
theorem rosterHas_iff (roster : List Member) (pid : String) :
    rosterHas roster pid = true ↔ pid ∈ roster.map (·.id) := by
  simp only [rosterHas, List.any_eq_true, List.mem_map, beq_iff_eq]

/-- A single expense with a known payer and positive amount contributes
zero to the total of all balances: the payer collects the amount and the
shares give it back exactly. -/
theorem expense_contrib_zero (roster : List Member) (e : Expense)
    (hnd : (roster.map (·.id)).Nodup) (hmem : e.paidById ∈ roster.map (·.id))
    (hpos : 0 < e.amount) :
    (roster.enum.map fun p =>
      (if e.paidById = p.2.id then e.amount else 0)
        - (shareOf roster.length e.amount.toNat p.1 : Int)).sum = 0 := by
  have hn : 0 < roster.length := by
    cases roster
    · simp at hmem
    · simp
  rw [sum_map_diff roster.enum
    (fun p => if e.paidById = p.2.id then e.amount else 0)
    (fun p => (shareOf roster.length e.amount.toNat p.1 : Int))]
  rw [enum_map_comp roster (fun m => if e.paidById = m.id then e.amount else 0)]
  rw [enum_map_fst_comp roster (fun i => (shareOf roster.length e.amount.toNat i : Int))]
  rw [sum_ite_mem e.paidById e.amount roster hnd hmem]
  have hcast : ((List.range roster.length).map
      fun i => (shareOf roster.length e.amount.toNat i : Int)).sum
      = ((((List.range roster.length).map
          (shareOf roster.length e.amount.toNat)).sum : Nat) : Int) := by
    rw [Nat.cast_list_sum, List.map_map]; rfl
  rw [hcast, shareOf_sum roster.length e.amount.toNat hn]
  omega

/-- The per-member balance over `e :: es` splits off the contribution of
the first expense. -/
theorem balanceOf_cons (n : Nat) (e : Expense) (es : List Expense)
    (i : Nat) (m : Member) :
    balanceOf n (e :: es) i m =
      ((if e.paidById = m.id then e.amount else 0)
        - (shareOf n e.amount.toNat i : Int)) + balanceOf n es i m := by
  simp [balanceOf]

/-- Core of the zero-sum invariant: with unique ids, known payers and
positive amounts, the per-member balances sum to zero. -/
theorem balanceOf_sum_zero (roster : List Member) (exps : List Expense)
    (hnd : (roster.map (·.id)).Nodup)
    (hpos : ∀ e ∈ exps, 0 < e.amount)
    (hpid : ∀ e ∈ exps, e.paidById ∈ roster.map (·.id)) :
    (roster.enum.map fun p => balanceOf roster.length exps p.1 p.2).sum = 0 := by
  induction exps with
  | nil => simp [balanceOf]
  | cons e es ih =>
    simp only [balanceOf_cons]
    rw [List.sum_map_add]
    rw [expense_contrib_zero roster e hnd (hpid e (by simp)) (hpos e (by simp))]
    rw [ih (fun x hx => hpos x (by simp [hx])) (fun x hx => hpid x (by simp [hx]))]
    ring

/-- Case analysis of a successful `ComputeBalances` call: either the
degenerate empty-roster/empty-expenses result, or the main aggregation
branch, in which every amount is positive and every payer is on the
roster. -/
theorem computeBalances_ok {roster : List Member} {exps : List Expense}
    {res : BalanceResult} (h : ComputeBalances roster exps = .ok res) :
    (roster = [] ∧ res.balances = []) ∨
    ((∀ e ∈ exps, 0 < e.amount) ∧ (∀ e ∈ exps, e.paidById ∈ roster.map (·.id)) ∧
     res.balances = roster.enum.map fun p =>
       { userId := p.2.id, name := p.2.name,
         balance := balanceOf roster.length exps p.1 p.2 }) := by
  unfold ComputeBalances at h
  split_ifs at h with h1 h2 h3 h4
  · refine Or.inl ⟨List.isEmpty_iff.mp h2, ?_⟩
    cases h; rfl
  · refine Or.inr ⟨?_, ?_, ?_⟩
    · intro e he
      simp only [List.any_eq_true, decide_eq_true_eq] at h1
      push_neg at h1
      exact h1 e he
    · intro e he
      by_contra hmem
      apply h4
      simp only [List.any_eq_true, Bool.not_eq_true']
      refine ⟨e, he, ?_⟩
      rw [Bool.eq_false_iff]
      intro hh
      exact hmem ((rosterHas_iff roster e.paidById).mp hh)
    · cases h; rfl

/-- The user ids of the returned balances are the roster ids, in roster
order. -/
theorem balances_userIds {roster : List Member} {exps : List Expense}
    {res : BalanceResult} (h : ComputeBalances roster exps = .ok res) :
    res.balances.map (·.userId) = roster.map (·.id) := by
  rcases computeBalances_ok h with ⟨hr, hb⟩ | ⟨_, _, hb⟩
  · rw [hb, hr]; rfl
  · rw [hb, List.map_map]
    exact enum_map_comp roster (·.id)

/-- Zero-sum invariant of ledger aggregation, used both for the invariant
itself and to feed the settlement planner. -/
theorem balances_sum_zero {roster : List Member} {exps : List Expense}
    {res : BalanceResult} (hnd : (roster.map (·.id)).Nodup)
    (h : ComputeBalances roster exps = .ok res) :
    (res.balances.map (·.balance)).sum = 0 := by
  rcases computeBalances_ok h with ⟨_, hb⟩ | ⟨hpos, hpid, hb⟩
  · simp [hb]
  · rw [hb, List.map_map]
    exact balanceOf_sum_zero roster exps hnd hpos hpid

/-- Two-member scenario used as concrete input: Alice and Bob, one expense
of 100.00 (10000 minor units) paid by Alice. -/
def rosterAB : List Member := [⟨"a", "Alice"⟩, ⟨"b", "Bob"⟩]

/-- The single 10000-minor-unit expense paid by Alice. -/
def expsAB : List Expense := [⟨"dinner", 10000, "a"⟩]

/-- The aggregation result for `rosterAB`/`expsAB`. -/
def balAB : BalanceResult :=
  ⟨10000, 5000, [⟨"a", "Alice", 5000⟩, ⟨"b", "Bob", -5000⟩]⟩

/-- The two-member scenario evaluates as expected. -/
theorem computeBalances_AB : ComputeBalances rosterAB expsAB = .ok balAB := by
  simp [ComputeBalances, balanceOf, shareOf, rosterAB, expsAB, rosterHas, balAB,
    List.enum, List.enumFrom]
  norm_num

/-- C1: for every roster (with the required unique member ids) and every
expense list accepted by `ComputeBalances`, the returned balances sum to
exactly zero — the zero-sum invariant, with no floating-point drift since
all arithmetic is in integer minor units. -/
theorem computeBalances_zero_sum (roster : List Member) (exps : List Expense)
    (res : BalanceResult) (hnd : (roster.map (·.id)).Nodup)
    (h : ComputeBalances roster exps = .ok res) :
    (res.balances.map (·.balance)).sum = 0 :=
  balances_sum_zero hnd h

/-- Witness for C1 at the concrete two-member scenario. -/
theorem computeBalances_zero_sum_witness :
    (balAB.balances.map (·.balance)).sum = 0 :=
  computeBalances_zero_sum rosterAB expsAB balAB (by decide) computeBalances_AB

/-- Three-member scenario of the spec (Scenario B): members A, B, C. -/
def rosterABC : List Member := [⟨"A", "A"⟩, ⟨"B", "B"⟩, ⟨"C", "C"⟩]

/-- One expense of 100.00 (10000 minor units) paid by A. -/
def exp100 : Expense := ⟨"trip", 10000, "A"⟩

/-- C5: shares are computed in integer minor units — each member's equal
share is `amount / n` rounded down and the remainder `amount % n` is
distributed one minor unit at a time in roster order, so the `n` shares of
a single expense sum exactly to the amount; and on the concrete
three-member scenario the shares are 33.34/33.33/33.33 and the balances
+66.66/−33.33/−33.33. -/
theorem expense_shares_exact :
    (∀ (n a : Nat), 0 < n → ((List.range n).map (shareOf n a)).sum = a) ∧
    (shareOf 3 10000 0 = 3334 ∧ shareOf 3 10000 1 = 3333 ∧ shareOf 3 10000 2 = 3333) ∧
    (ComputeBalances rosterABC [exp100]).toOption.map (·.balances) =
      some [⟨"A", "A", 6666⟩, ⟨"B", "B", -3333⟩, ⟨"C", "C", -3333⟩] :=
  ⟨shareOf_sum, by decide, by decide⟩

/-- Witness for C5: the three shares of the 10000-unit expense sum to
10000. -/
theorem expense_shares_exact_witness :
    0 < 3 ∧ ((List.range 3).map (shareOf 3 10000)).sum = 10000 :=
  ⟨by decide, expense_shares_exact.1 3 10000 (by decide)⟩

/-- C6: an expense list containing an expense whose `paidById` is absent
from the (non-empty, validly-priced) roster makes `ComputeBalances` fail
with the typed error `UnknownPayer`; no partially-computed result is
returned and the expense is not silently skipped. -/
theorem unknown_payer_rejected (roster : List Member) (exps : List Expense)
    (hpos : ∀ e ∈ exps, 0 < e.amount) (hne : roster ≠ [])
    (hbad : ∃ e ∈ exps, e.paidById ∉ roster.map (·.id)) :
    ComputeBalances roster exps = .error .UnknownPayer := by
  unfold ComputeBalances
  split_ifs with h1 h2 h3 h4
  · exfalso
    simp only [List.any_eq_true, decide_eq_true_eq] at h1
    obtain ⟨e, he, hle⟩ := h1
    exact absurd (hpos e he) (by omega)
  · exact absurd (List.isEmpty_iff.mp h2) hne
  · exact absurd (List.isEmpty_iff.mp h2) hne
  · rfl
  · exfalso
    obtain ⟨e, he, hmem⟩ := hbad
    apply h4
    simp only [List.any_eq_true, Bool.not_eq_true']
    refine ⟨e, he, ?_⟩
    rw [Bool.eq_false_iff]
    intro hh
    exact hmem ((rosterHas_iff roster e.paidById).mp hh)

/-- Witness for C6: an expense paid by a non-roster member id. -/
theorem unknown_payer_rejected_witness :
    ComputeBalances rosterAB [⟨"taxi", 500, "zz"⟩] = .error .UnknownPayer :=
  unknown_payer_rejected rosterAB [⟨"taxi", 500, "zz"⟩] (by decide) (by decide)
    ⟨⟨"taxi", 500, "zz"⟩, by decide, by decide⟩

/-- C7: a non-positive expense amount is rejected with `InvalidAmount`
before any aggregation, so it never enters the balance sum; and at the
submission boundary, a form whose amount parses to `NaN` or to a value
`≤ 0` fails validation and is never sent to the expense API. -/
theorem invalid_amount_rejected :
    (∀ (roster : List Member) (exps : List Expense),
        (∃ e ∈ exps, e.amount ≤ 0) →
        ComputeBalances roster exps = .error .InvalidAmount) ∧
    (∀ (f : ExpenseForm) (paidById : String),
        (f.amountParsed = none ∨ ∃ a, f.amountParsed = some a ∧ a ≤ 0) →
        formValid f paidById = false) := by
  constructor
  · intro roster exps hbad
    have hc : exps.any (fun e => decide (e.amount ≤ 0)) = true := by
      simp only [List.any_eq_true, decide_eq_true_eq]
      exact hbad
    simp [ComputeBalances, hc]
  · intro f paidById hf
    unfold formValid
    rcases hf with h | ⟨a, ha, hle⟩
    · simp [h]
    · have hd : decide (0 < a) = false := decide_eq_false (not_lt.mpr hle)
      simp [ha, hd]

/-- Witness for C7: a negative-amount expense is rejected by the core, and
a zero-amount form fails validation. -/
theorem invalid_amount_rejected_witness :
    ComputeBalances rosterAB [⟨"refund", -100, "a"⟩] = .error .InvalidAmount ∧
    formValid ⟨"x", "0", some 0⟩ "a" = false :=
  ⟨invalid_amount_rejected.1 rosterAB [⟨"refund", -100, "a"⟩]
      ⟨⟨"refund", -100, "a"⟩, by decide, by decide⟩,
   invalid_amount_rejected.2 ⟨"x", "0", some 0⟩ "a" (Or.inr ⟨0, rfl, le_refl 0⟩)⟩

/-- Expense record as consumed by `GroupBalancesPage` from the
`/api/expenses` endpoint; `createdAt` is modelled as the epoch
milliseconds obtained from `new Date(e.createdAt).getTime()`. -/
structure ExpenseRec where
  id : String
  description : String
  amount : Rat
  groupId : String
  createdAt : Nat
deriving DecidableEq, Repr

/-- The newest-first order of the sort comparator
`(a, b) => new Date(b.createdAt).getTime() - new Date(a.createdAt).getTime()`. -/
def newerFirst (a b : ExpenseRec) : Prop :=
  b.createdAt ≤ a.createdAt

instance : DecidableRel newerFirst := fun a b => by
  unfold newerFirst; exact inferInstance

instance : IsTotal ExpenseRec newerFirst :=
  ⟨fun a b => Nat.le_total b.createdAt a.createdAt⟩

instance : IsTrans ExpenseRec newerFirst :=
  ⟨fun _ _ _ h1 h2 => Nat.le_trans h2 h1⟩

/-- Embeds the expense processing in `fetchData` of `GroupBalancesPage`:
the `/api/expenses` response is filtered client-side to the current group
(the backend returns all expenses unfiltered) and sorted by `createdAt`
descending, newest first. -/
def fetchDataExpenses (gid : String) (exps : List ExpenseRec) : List ExpenseRec :=
  List.insertionSort newerFirst (exps.filter fun e => e.groupId == gid)

/-- C9: the displayed expense history is exactly the expenses whose
`groupId` equals the current group — a permutation of the client-side
filter of the unfiltered response — ordered by `createdAt` descending. -/
theorem expense_history_filter_sorted (gid : String) (exps : List ExpenseRec) :
    (fetchDataExpenses gid exps).Perm (exps.filter fun e => e.groupId == gid) ∧
    List.Sorted newerFirst (fetchDataExpenses gid exps) ∧
    ∀ e, e ∈ fetchDataExpenses gid exps ↔ e ∈ exps ∧ e.groupId = gid := by
  unfold fetchDataExpenses
  refine ⟨List.perm_insertionSort newerFirst _,
    List.sorted_insertionSort newerFirst _, ?_⟩
  intro e
  rw [(List.perm_insertionSort newerFirst
    (exps.filter fun e => e.groupId == gid)).mem_iff]
  simp [List.mem_filter]

/-- Request body of `POST /api/group-members` as read by the route. -/
structure MemberReqBody where
  groupId : String
  userId : String
deriving DecidableEq, Repr

/-- A `groupMember` row as created by `prisma.groupMember.create`. -/
structure GroupMemberRecord where
  groupId : String
  userId : String
deriving DecidableEq, Repr

/-- HTTP response of an API route: a JSON payload, or an error JSON with a
status code. -/
inductive ApiResponse (α : Type) where
  | json (value : α)
  | errorJson (status : Nat) (message : String)
deriving DecidableEq, Repr

/-- Embeds `POST` of `src/app/api/group-members/route.ts`.  `body` is the
result of `req.json()`, `none` when parsing throws; `create` is the
database effect `prisma.groupMember.create`, returning `none` when the
operation throws (nonexistent ids, database error), in which case nothing
is created.  The route validates nothing: it forwards `body.groupId` and
`body.userId` to `create` as given, returns the created record as JSON on
success, and maps any exception to HTTP 500 with
`{"error": "Failed to add member to group"}`. -/
def groupMembersPOST (body : Option MemberReqBody)
    (create : MemberReqBody → Option GroupMemberRecord) :
    ApiResponse GroupMemberRecord :=
  match body with
  | none => .errorJson 500 "Failed to add member to group"
  | some b =>
    match create ⟨b.groupId, b.userId⟩ with
    | none => .errorJson 500 "Failed to add member to group"
    | some m => .json m

/-- C10: the route performs no validation — for any body it attempts the
create with the given ids; a malformed body or a failing create yields
HTTP 500 with the fixed error JSON (and nothing is created), and a
successful create returns the created record as JSON. -/
theorem group_members_post_behavior
    (create : MemberReqBody → Option GroupMemberRecord) :
    groupMembersPOST none create = .errorJson 500 "Failed to add member to group" ∧
    ∀ b : MemberReqBody,
      (create ⟨b.groupId, b.userId⟩ = none →
        groupMembersPOST (some b) create =
          .errorJson 500 "Failed to add member to group") ∧
      (∀ m, create ⟨b.groupId, b.userId⟩ = some m →
        groupMembersPOST (some b) create = .json m) := by
  refine ⟨rfl, fun b => ⟨?_, ?_⟩⟩
  · intro h; simp [groupMembersPOST, h]
  · intro m h; simp [groupMembersPOST, h]

/-- Witness for C10: a create that succeeds echoes the record; a create
that throws yields the 500 error JSON. -/
theorem group_members_post_behavior_witness :
    groupMembersPOST (some ⟨"g1", "u1"⟩) (fun b => some ⟨b.groupId, b.userId⟩) =
      .json ⟨"g1", "u1"⟩ ∧
    groupMembersPOST (some ⟨"g1", "u1"⟩) (fun _ => none) =
      .errorJson 500 "Failed to add member to group" :=
  ⟨((group_members_post_behavior (fun b => some ⟨b.groupId, b.userId⟩)).2
      ⟨"g1", "u1"⟩).2 ⟨"g1", "u1"⟩ rfl,
   ((group_members_post_behavior (fun _ => none)).2 ⟨"g1", "u1"⟩).1 rfl⟩

/-- Total remaining magnitude carried by the parties labelled `uid`. -/
def totalOf (uid : String) (ps : List Party) : Nat :=
  (ps.map fun p => if p.uid = uid then p.amt else 0).sum

/-- Sum of the settlement amounts in which `uid` is the payer (`from`). -/
def sumFrom (uid : String) (ss : List Settlement) : Nat :=
  (ss.map fun s => if s.fromId = uid then s.amount else 0).sum

/-- Sum of the settlement amounts in which `uid` is the receiver (`to`). -/
def sumTo (uid : String) (ss : List Settlement) : Nat :=
  (ss.map fun s => if s.toId = uid then s.amount else 0).sum

/-- The total `totalOf` only depends on the multiset of parties. -/
theorem totalOf_perm (uid : String) {l₁ l₂ : List Party} (h : l₁.Perm l₂) :
    totalOf uid l₁ = totalOf uid l₂ :=
  ((h.map _).sum_eq : _)

/-- Value of `totalOf` after a sorted insertion. -/
theorem totalOf_orderedInsert (uid : String) (p : Party) (l : List Party) :
    totalOf uid (List.orderedInsert PartyRel p l) =
      (if p.uid = uid then p.amt else 0) + totalOf uid l := by
  have h := totalOf_perm uid (List.perm_orderedInsert PartyRel p l)
  simpa [totalOf] using h

/-- Value of `totalOf` on a cons. -/
theorem totalOf_cons (uid : String) (p : Party) (ps : List Party) :
    totalOf uid (p :: ps) = (if p.uid = uid then p.amt else 0) + totalOf uid ps := by
  simp [totalOf]

/-- Value of `sumFrom` on a cons. -/
theorem sumFrom_cons (uid : String) (s : Settlement) (ss : List Settlement) :
    sumFrom uid (s :: ss) = (if s.fromId = uid then s.amount else 0) + sumFrom uid ss := by
  simp [sumFrom]

/-- Value of `sumTo` on a cons. -/
theorem sumTo_cons (uid : String) (s : Settlement) (ss : List Settlement) :
    sumTo uid (s :: ss) = (if s.toId = uid then s.amount else 0) + sumTo uid ss := by
  simp [sumTo]

/-- The total magnitude is invariant under permutation. -/
theorem sum_amt_perm {l₁ l₂ : List Party} (h : l₁.Perm l₂) :
    (l₁.map (·.amt)).sum = (l₂.map (·.amt)).sum :=
  ((h.map _).sum_eq : _)

/-- The total magnitude after a sorted insertion. -/
theorem sum_amt_orderedInsert (p : Party) (l : List Party) :
    ((List.orderedInsert PartyRel p l).map (·.amt)).sum
      = p.amt + (l.map (·.amt)).sum := by
  simpa using sum_amt_perm (List.perm_orderedInsert PartyRel p l)

/-- A list of positive-magnitude parties with zero total is empty. -/
theorem eq_nil_of_sum_amt_zero {l : List Party} (hpos : ∀ p ∈ l, 0 < p.amt)
    (h : (l.map (·.amt)).sum = 0) : l = [] := by
  cases l with
  | nil => rfl
  | cons p t =>
    exfalso
    have hp := hpos p (by simp)
    simp only [List.map_cons, List.sum_cons] at h
    omega

/-- One unfolding step of the greedy loop. -/
theorem settleLoop_cons (d c : Party) (ds cs : List Party) :
    settleLoop (d :: ds) (c :: cs) =
      ⟨d.uid, c.uid, min d.amt c.amt⟩ ::
        settleLoop
          (if d.amt - min d.amt c.amt = 0 then ds
           else List.orderedInsert PartyRel ⟨d.uid, d.amt - min d.amt c.amt⟩ ds)
          (if c.amt - min d.amt c.amt = 0 then cs
           else List.orderedInsert PartyRel ⟨c.uid, c.amt - min d.amt c.amt⟩ cs) := by
  rw [settleLoop]

/-- Reconciliation invariant of the greedy loop: when all remaining
magnitudes are positive and the debtor total equals the creditor total,
the loop pays out exactly every party's magnitude — the settlements in
which a party appears as `from` (resp. `to`) sum to its debtor (resp.
creditor) magnitude. -/
theorem settleLoop_reconciles (ds cs : List Party) :
    (∀ p ∈ ds, 0 < p.amt) → (∀ p ∈ cs, 0 < p.amt) →
    (ds.map (·.amt)).sum = (cs.map (·.amt)).sum →
    ∀ uid, sumFrom uid (settleLoop ds cs) = totalOf uid ds ∧
           sumTo uid (settleLoop ds cs) = totalOf uid cs := by
  induction ds, cs using settleLoop.induct with
  | case1 cs =>
    intro _ hposc hbal uid
    have hnil : cs = [] := eq_nil_of_sum_amt_zero hposc (by simpa using hbal.symm)
    subst hnil
    simp [settleLoop, sumFrom, sumTo, totalOf]
  | case2 d ds =>
    intro hposd _ hbal uid
    exfalso
    have hd := hposd d (by simp)
    simp only [List.map_cons, List.sum_cons, List.map_nil, List.sum_nil] at hbal
    omega
  | case3 d ds c cs ih =>
    intro hposd hposc hbal uid
    simp only [dite_eq_ite] at ih
    have hdpos := hposd d (by simp)
    have hcpos := hposc c (by simp)
    have htd : min d.amt c.amt ≤ d.amt := Nat.min_le_left _ _
    have htc : min d.amt c.amt ≤ c.amt := Nat.min_le_right _ _
    simp only [List.map_cons, List.sum_cons] at hbal
    have hposd' : ∀ p ∈ (if d.amt - min d.amt c.amt = 0 then ds
        else List.orderedInsert PartyRel ⟨d.uid, d.amt - min d.amt c.amt⟩ ds),
        0 < p.amt := by
      split_ifs with hz
      · exact fun p hp => hposd p (by simp [hp])
      · intro p hp
        rcases (List.mem_orderedInsert PartyRel).mp hp with rfl | hp'
        · exact Nat.pos_of_ne_zero hz
        · exact hposd p (by simp [hp'])
    have hposc' : ∀ p ∈ (if c.amt - min d.amt c.amt = 0 then cs
        else List.orderedInsert PartyRel ⟨c.uid, c.amt - min d.amt c.amt⟩ cs),
        0 < p.amt := by
      split_ifs with hz
      · exact fun p hp => hposc p (by simp [hp])
      · intro p hp
        rcases (List.mem_orderedInsert PartyRel).mp hp with rfl | hp'
        · exact Nat.pos_of_ne_zero hz
        · exact hposc p (by simp [hp'])
    have hsumd : ((if d.amt - min d.amt c.amt = 0 then ds
        else List.orderedInsert PartyRel ⟨d.uid, d.amt - min d.amt c.amt⟩ ds).map
          (·.amt)).sum = d.amt + (ds.map (·.amt)).sum - min d.amt c.amt := by
      split_ifs with hz
      · omega
      · rw [sum_amt_orderedInsert]
        dsimp only
        omega
    have hsumc : ((if c.amt - min d.amt c.amt = 0 then cs
        else List.orderedInsert PartyRel ⟨c.uid, c.amt - min d.amt c.amt⟩ cs).map
          (·.amt)).sum = c.amt + (cs.map (·.amt)).sum - min d.amt c.amt := by
      split_ifs with hz
      · omega
      · rw [sum_amt_orderedInsert]
        dsimp only
        omega
    obtain ⟨hF, hT⟩ := ih hposd' hposc' (by rw [hsumd, hsumc]; omega) uid
    rw [settleLoop_cons, sumFrom_cons, sumTo_cons, hF, hT,
      totalOf_cons, totalOf_cons]
    dsimp only
    constructor
    · by_cases hz : d.amt - min d.amt c.amt = 0
      · rw [if_pos hz]
        by_cases hu : d.uid = uid <;> simp [hu] <;> omega
      · rw [if_neg hz, totalOf_orderedInsert]
        dsimp only
        by_cases hu : d.uid = uid <;> simp [hu] <;> omega
    · by_cases hz : c.amt - min d.amt c.amt = 0
      · rw [if_pos hz]
        by_cases hu : c.uid = uid <;> simp [hu] <;> omega
      · rw [if_neg hz, totalOf_orderedInsert]
        dsimp only
        by_cases hu : c.uid = uid <;> simp [hu] <;> omega

/-- Each greedy step drives at least one party to zero, so the loop emits
at most one settlement fewer than the number of participating parties. -/
theorem settleLoop_length (ds cs : List Party) :
    (settleLoop ds cs).length ≤ ds.length + cs.length - 1 := by
  induction ds, cs using settleLoop.induct with
  | case1 cs => simp [settleLoop]
  | case2 d ds => simp [settleLoop]
  | case3 d ds c cs ih =>
    simp only [dite_eq_ite] at ih
    rw [settleLoop_cons]
    simp only [List.length_cons]
    have hz : d.amt - min d.amt c.amt = 0 ∨ c.amt - min d.amt c.amt = 0 := by omega
    have hAB : (if d.amt - min d.amt c.amt = 0 then ds
          else List.orderedInsert PartyRel ⟨d.uid, d.amt - min d.amt c.amt⟩ ds).length
        + (if c.amt - min d.amt c.amt = 0 then cs
          else List.orderedInsert PartyRel ⟨c.uid, c.amt - min d.amt c.amt⟩ cs).length
        ≤ ds.length + cs.length + 1 := by
      rcases hz with hz | hz
      · rw [if_pos hz]
        have hb : (if c.amt - min d.amt c.amt = 0 then cs
            else List.orderedInsert PartyRel ⟨c.uid, c.amt - min d.amt c.amt⟩ cs).length
            ≤ cs.length + 1 := by
          split_ifs
          · omega
          · rw [List.orderedInsert_length]
        omega
      · rw [if_pos hz]
        have ha : (if d.amt - min d.amt c.amt = 0 then ds
            else List.orderedInsert PartyRel ⟨d.uid, d.amt - min d.amt c.amt⟩ ds).length
            ≤ ds.length + 1 := by
          split_ifs
          · omega
          · rw [List.orderedInsert_length]
        omega
    omega

/-- Every member with a non-zero balance becomes exactly one party —
a debtor or a creditor, never both. -/
theorem parties_count (key : Balance → String) (bs : List Balance) :
    (bs.filterMap (debtorParty key)).length
      + (bs.filterMap (creditorParty key)).length
      = bs.countP fun b => decide (b.balance ≠ 0) := by
  induction bs with
  | nil => rfl
  | cons b t ih =>
    rw [List.filterMap_cons, List.filterMap_cons, List.countP_cons]
    rcases lt_trichotomy b.balance 0 with h | h | h
    · have h1 : debtorParty key b = some ⟨key b, (-b.balance).toNat⟩ := if_pos h
      have h2 : creditorParty key b = none := if_neg (by omega)
      simp only [h1, h2]
      rw [if_pos (decide_eq_true (show b.balance ≠ 0 by omega))]
      simp only [List.length_cons]
      omega
    · have h1 : debtorParty key b = none := if_neg (by omega)
      have h2 : creditorParty key b = none := if_neg (by omega)
      simp only [h1, h2]
      rw [if_neg (by simp [h] : ¬decide (b.balance ≠ 0) = true)]
      omega
    · have h1 : debtorParty key b = none := if_neg (by omega)
      have h2 : creditorParty key b = some ⟨key b, b.balance.toNat⟩ := if_pos h
      simp only [h1, h2]
      rw [if_pos (decide_eq_true (show b.balance ≠ 0 by omega))]
      simp only [List.length_cons]
      omega

/-- Debtor parties carry positive magnitudes. -/
theorem debtor_parties_pos (key : Balance → String) (bs : List Balance) :
    ∀ p ∈ bs.filterMap (debtorParty key), 0 < p.amt := by
  intro p hp
  rcases List.mem_filterMap.mp hp with ⟨b, _, hb⟩
  unfold debtorParty at hb
  split_ifs at hb with h
  cases hb
  dsimp only
  omega

/-- Creditor parties carry positive magnitudes. -/
theorem creditor_parties_pos (key : Balance → String) (bs : List Balance) :
    ∀ p ∈ bs.filterMap (creditorParty key), 0 < p.amt := by
  intro p hp
  rcases List.mem_filterMap.mp hp with ⟨b, _, hb⟩
  unfold creditorParty at hb
  split_ifs at hb with h
  cases hb
  dsimp only
  omega

/-- The total debtor magnitude is the sum of the negative parts. -/
theorem debtor_sum_amt (key : Balance → String) (bs : List Balance) :
    ((bs.filterMap (debtorParty key)).map (·.amt)).sum
      = (bs.map fun b => (-b.balance).toNat).sum := by
  induction bs with
  | nil => rfl
  | cons b t ih =>
    rw [List.filterMap_cons]
    by_cases h : b.balance < 0
    · rw [show debtorParty key b = some ⟨key b, (-b.balance).toNat⟩ from if_pos h]
      simp only [List.map_cons, List.sum_cons, ih]
    · rw [show debtorParty key b = none from if_neg h]
      simp only [List.map_cons, List.sum_cons, ih]
      omega

/-- The total creditor magnitude is the sum of the positive parts. -/
theorem creditor_sum_amt (key : Balance → String) (bs : List Balance) :
    ((bs.filterMap (creditorParty key)).map (·.amt)).sum
      = (bs.map fun b => b.balance.toNat).sum := by
  induction bs with
  | nil => rfl
  | cons b t ih =>
    rw [List.filterMap_cons]
    by_cases h : 0 < b.balance
    · rw [show creditorParty key b = some ⟨key b, b.balance.toNat⟩ from if_pos h]
      simp only [List.map_cons, List.sum_cons, ih]
    · rw [show creditorParty key b = none from if_neg h]
      simp only [List.map_cons, List.sum_cons, ih]
      omega

/-- Difference of the positive and negative parts of a balance list. -/
theorem toNat_sums (bs : List Balance) :
    ((((bs.map fun b => b.balance.toNat).sum : Nat)) : Int)
      - ((((bs.map fun b => (-b.balance).toNat).sum : Nat)) : Int)
      = (bs.map (·.balance)).sum := by
  induction bs with
  | nil => rfl
  | cons b t ih =>
    simp only [List.map_cons, List.sum_cons, Nat.cast_add]
    omega

/-- An id that labels no balance collects no debtor magnitude. -/
theorem totalOf_debtor_not_mem (bs : List Balance) (uid : String)
    (h : uid ∉ bs.map (·.userId)) :
    totalOf uid (bs.filterMap (debtorParty fun x => x.userId)) = 0 := by
  induction bs with
  | nil => rfl
  | cons b t ih =>
    simp only [List.map_cons, List.mem_cons, not_or] at h
    rw [List.filterMap_cons]
    by_cases hb : b.balance < 0
    · rw [show debtorParty (fun x => x.userId) b
          = some ⟨b.userId, (-b.balance).toNat⟩ from if_pos hb]
      rw [totalOf_cons]
      dsimp only
      rw [if_neg (fun he => h.1 he.symm), ih h.2]
    · rw [show debtorParty (fun x => x.userId) b = none from if_neg hb]
      exact ih h.2

/-- An id that labels no balance collects no creditor magnitude. -/
theorem totalOf_creditor_not_mem (bs : List Balance) (uid : String)
    (h : uid ∉ bs.map (·.userId)) :
    totalOf uid (bs.filterMap (creditorParty fun x => x.userId)) = 0 := by
  induction bs with
  | nil => rfl
  | cons b t ih =>
    simp only [List.map_cons, List.mem_cons, not_or] at h
    rw [List.filterMap_cons]
    by_cases hb : 0 < b.balance
    · rw [show creditorParty (fun x => x.userId) b
          = some ⟨b.userId, b.balance.toNat⟩ from if_pos hb]
      rw [totalOf_cons]
      dsimp only
      rw [if_neg (fun he => h.1 he.symm), ih h.2]
    · rw [show creditorParty (fun x => x.userId) b = none from if_neg hb]
      exact ih h.2

/-- With unique user ids, the debtor magnitude collected by a member's id
is exactly the positive part of the negated balance of that member. -/
theorem totalOf_debtor (bs : List Balance) (hnd : (bs.map (·.userId)).Nodup)
    (b : Balance) (hb : b ∈ bs) :
    totalOf b.userId (bs.filterMap (debtorParty fun x => x.userId))
      = (-b.balance).toNat := by
  induction bs with
  | nil => simp at hb
  | cons x t ih =>
    simp only [List.map_cons, List.nodup_cons] at hnd
    rw [List.filterMap_cons]
    rcases List.mem_cons.mp hb with rfl | hbt
    · by_cases hneg : b.balance < 0
      · rw [show debtorParty (fun x => x.userId) b
            = some ⟨b.userId, (-b.balance).toNat⟩ from if_pos hneg]
        rw [totalOf_cons]
        dsimp only
        rw [if_pos rfl, totalOf_debtor_not_mem t _ hnd.1]
        omega
      · rw [show debtorParty (fun x => x.userId) b = none from if_neg hneg]
        rw [totalOf_debtor_not_mem t _ hnd.1]
        omega
    · have hne : b.userId ≠ x.userId := by
        intro he
        exact hnd.1 (he ▸ List.mem_map.mpr ⟨b, hbt, rfl⟩)
      by_cases hneg : x.balance < 0
      · rw [show debtorParty (fun y => y.userId) x
            = some ⟨x.userId, (-x.balance).toNat⟩ from if_pos hneg]
        rw [totalOf_cons]
        dsimp only
        rw [if_neg (fun he => hne he.symm), ih hnd.2 hbt]
        omega
      · rw [show debtorParty (fun y => y.userId) x = none from if_neg hneg]
        exact ih hnd.2 hbt

/-- With unique user ids, the creditor magnitude collected by a member's
id is exactly the positive part of the balance of that member. -/
theorem totalOf_creditor (bs : List Balance) (hnd : (bs.map (·.userId)).Nodup)
    (b : Balance) (hb : b ∈ bs) :
    totalOf b.userId (bs.filterMap (creditorParty fun x => x.userId))
      = b.balance.toNat := by
  induction bs with
  | nil => simp at hb
  | cons x t ih =>
    simp only [List.map_cons, List.nodup_cons] at hnd
    rw [List.filterMap_cons]
    rcases List.mem_cons.mp hb with rfl | hbt
    · by_cases hpos : 0 < b.balance
      · rw [show creditorParty (fun x => x.userId) b
            = some ⟨b.userId, b.balance.toNat⟩ from if_pos hpos]
        rw [totalOf_cons]
        dsimp only
        rw [if_pos rfl, totalOf_creditor_not_mem t _ hnd.1]
        omega
      · rw [show creditorParty (fun x => x.userId) b = none from if_neg hpos]
        rw [totalOf_creditor_not_mem t _ hnd.1]
        omega
    · have hne : b.userId ≠ x.userId := by
        intro he
        exact hnd.1 (he ▸ List.mem_map.mpr ⟨b, hbt, rfl⟩)
      by_cases hpos : 0 < x.balance
      · rw [show creditorParty (fun y => y.userId) x
            = some ⟨x.userId, x.balance.toNat⟩ from if_pos hpos]
        rw [totalOf_cons]
        dsimp only
        rw [if_neg (fun he => hne he.symm), ih hnd.2 hbt]
        omega
      · rw [show creditorParty (fun y => y.userId) x = none from if_neg hpos]
        exact ih hnd.2 hbt

/-- The settlement plan of the two-member scenario: Bob pays Alice 50.00. -/
theorem computeSettlements_AB :
    ComputeSettlements balAB.balances = .ok [⟨"b", "a", 5000⟩] := by
  simp [balAB, ComputeSettlements, settlementsByKey, debtorParty, creditorParty,
    settleLoop]

/-- C2: for every balance set produced by `ComputeBalances` (over a roster
with unique ids), the settlement plan reconciles exactly — for every
member, the settlements in which they appear as `from` sum to
`max 0 (-balance)` and those in which they appear as `to` sum to
`max 0 balance`. -/
theorem computeSettlements_reconciles (roster : List Member) (exps : List Expense)
    (res : BalanceResult) (ss : List Settlement)
    (hnd : (roster.map (·.id)).Nodup)
    (hok : ComputeBalances roster exps = .ok res)
    (hs : ComputeSettlements res.balances = .ok ss)
    (b : Balance) (hb : b ∈ res.balances) :
    (sumFrom b.userId ss : Int) = max 0 (-b.balance) ∧
    (sumTo b.userId ss : Int) = max 0 b.balance := by
  have hndu : (res.balances.map (·.userId)).Nodup := by
    rw [balances_userIds hok]; exact hnd
  have hsum := balances_sum_zero hnd hok
  unfold ComputeSettlements settlementsByKey at hs
  rw [if_neg (fun hc => hc hsum)] at hs
  injection hs with hs'
  subst hs'
  have hposD : ∀ p ∈ List.insertionSort PartyRel
      (res.balances.filterMap (debtorParty fun x => x.userId)), 0 < p.amt :=
    fun p hp => debtor_parties_pos _ _ p
      ((List.perm_insertionSort PartyRel _).mem_iff.mp hp)
  have hposC : ∀ p ∈ List.insertionSort PartyRel
      (res.balances.filterMap (creditorParty fun x => x.userId)), 0 < p.amt :=
    fun p hp => creditor_parties_pos _ _ p
      ((List.perm_insertionSort PartyRel _).mem_iff.mp hp)
  have hbal : ((List.insertionSort PartyRel
        (res.balances.filterMap (debtorParty fun x => x.userId))).map (·.amt)).sum
      = ((List.insertionSort PartyRel
        (res.balances.filterMap (creditorParty fun x => x.userId))).map (·.amt)).sum := by
    rw [sum_amt_perm (List.perm_insertionSort PartyRel _),
      sum_amt_perm (List.perm_insertionSort PartyRel _),
      debtor_sum_amt, creditor_sum_amt]
    have ht := toNat_sums res.balances
    rw [hsum] at ht
    omega
  obtain ⟨hF, hT⟩ := settleLoop_reconciles _ _ hposD hposC hbal b.userId
  rw [totalOf_perm _ (List.perm_insertionSort PartyRel _)] at hF hT
  rw [totalOf_debtor res.balances hndu b hb] at hF
  rw [totalOf_creditor res.balances hndu b hb] at hT
  rw [hF, hT]
  constructor
  · rw [Int.toNat_eq_max]
    exact sup_comm _ _
  · rw [Int.toNat_eq_max]
    exact sup_comm _ _

/-- Witness for C2 at the two-member scenario: in the plan
`[{from: b, to: a, 50.00}]`, Alice (balance +50.00) receives 50.00 and
pays nothing. -/
theorem computeSettlements_reconciles_witness :
    (sumFrom ("a") [(⟨"b", "a", 5000⟩ : Settlement)] : Int) = max 0 (-(5000 : Int)) ∧
    (sumTo ("a") [(⟨"b", "a", 5000⟩ : Settlement)] : Int) = max 0 (5000 : Int) :=
  computeSettlements_reconciles rosterAB expsAB balAB [⟨"b", "a", 5000⟩]
    (by decide) computeBalances_AB computeSettlements_AB
    ⟨"a", "Alice", 5000⟩ (by decide)

/-- C3: the number of settlements returned by `ComputeSettlements` is at
most `k - 1` (truncated at zero), where `k` is the number of members with
non-zero balance. -/
theorem computeSettlements_length_bound (bs : List Balance) (ss : List Settlement)
    (h : ComputeSettlements bs = .ok ss) :
    ss.length ≤ (bs.countP fun b => decide (b.balance ≠ 0)) - 1 := by
  unfold ComputeSettlements settlementsByKey at h
  split_ifs at h with hz
  injection h with h'
  subst h'
  have hlen := settleLoop_length
    (List.insertionSort PartyRel (bs.filterMap (debtorParty fun x => x.userId)))
    (List.insertionSort PartyRel (bs.filterMap (creditorParty fun x => x.userId)))
  rw [List.length_insertionSort, List.length_insertionSort, parties_count] at hlen
  exact hlen

/-- Witness for C3: two non-zero balances, one settlement, `1 ≤ 2 - 1`. -/
theorem computeSettlements_length_bound_witness :
    ([(⟨"b", "a", 5000⟩ : Settlement)] : List Settlement).length
      ≤ (balAB.balances.countP fun b => decide (b.balance ≠ 0)) - 1 :=
  computeSettlements_length_bound balAB.balances [⟨"b", "a", 5000⟩]
    computeSettlements_AB

/-- C4: the settlement planner is deterministic and independent of the
iteration order of its input — any two balance lists that are permutations
of each other produce the identical settlement plan, because both
collections are ordered by remaining magnitude descending with ties broken
by the fixed key (ascending member id), never by arbitrary input order. -/
theorem computeSettlements_order_independent (bs₁ bs₂ : List Balance)
    (h : bs₁.Perm bs₂) :
    ComputeSettlements bs₁ = ComputeSettlements bs₂ := by
  unfold ComputeSettlements settlementsByKey
  rw [show (bs₁.map (·.balance)).sum = (bs₂.map (·.balance)).sum
    from ((h.map _).sum_eq : _)]
  split_ifs with hz
  · rfl
  · have hd : List.insertionSort PartyRel (bs₁.filterMap (debtorParty fun x => x.userId))
        = List.insertionSort PartyRel (bs₂.filterMap (debtorParty fun x => x.userId)) :=
      List.eq_of_perm_of_sorted
        ((List.perm_insertionSort PartyRel _).trans
          ((h.filterMap _).trans (List.perm_insertionSort PartyRel _).symm))
        (List.sorted_insertionSort PartyRel _)
        (List.sorted_insertionSort PartyRel _)
    have hc : List.insertionSort PartyRel (bs₁.filterMap (creditorParty fun x => x.userId))
        = List.insertionSort PartyRel (bs₂.filterMap (creditorParty fun x => x.userId)) :=
      List.eq_of_perm_of_sorted
        ((List.perm_insertionSort PartyRel _).trans
          ((h.filterMap _).trans (List.perm_insertionSort PartyRel _).symm))
        (List.sorted_insertionSort PartyRel _)
        (List.sorted_insertionSort PartyRel _)
    rw [hd, hc]

/-- Witness for C4: the two-member balances presented in either order give
the identical plan. -/
theorem computeSettlements_order_independent_witness :
    ComputeSettlements [⟨"a", "Alice", 5000⟩, ⟨"b", "Bob", -5000⟩]
      = ComputeSettlements [⟨"b", "Bob", -5000⟩, ⟨"a", "Alice", 5000⟩] :=
  computeSettlements_order_independent _ _ (List.Perm.swap _ _ _)

/-- Aggregation result of the id-versus-name scenario: Alice (id `u1`)
paid 100.00 for herself and Bob (id `u2`). -/
def resIdName : BalanceResult :=
  ⟨10000, 5000, [⟨"u1", "Alice", 5000⟩, ⟨"u2", "Bob", -5000⟩]⟩

/-- C8 evidence: on a roster whose display names differ from the ids, the
observed settlement output labels `from`/`to` with the display names
`Bob`/`Alice`, neither of which is a member identifier — contradicting the
contract that the core boundary carries stable member ids. -/
theorem settlement_labels_are_names :
    ComputeBalances [⟨"u1", "Alice"⟩, ⟨"u2", "Bob"⟩] [⟨"hotel", 10000, "u1"⟩]
      = .ok resIdName ∧
    ComputeSettlementsObserved resIdName.balances = .ok [⟨"Bob", "Alice", 5000⟩] ∧
    "Bob" ∉ ([⟨"u1", "Alice"⟩, ⟨"u2", "Bob"⟩] : List Member).map (·.id) ∧
    "Alice" ∉ ([⟨"u1", "Alice"⟩, ⟨"u2", "Bob"⟩] : List Member).map (·.id) := by
  refine ⟨?_, ?_, by decide, by decide⟩
  · simp [ComputeBalances, balanceOf, shareOf, rosterHas, resIdName,
      List.enum, List.enumFrom]
    norm_num
  · simp [ComputeSettlementsObserved, settlementsByKey, debtorParty, creditorParty,
      settleLoop, resIdName]

end YourSplit
